import Mathlib

/-!
# `computeGold` — the CPU reference transform of `example/cuda/template_cpu.cpp`

```
void computeGold(float *reference, float *idata, const unsigned int len)
{
    const float f_len = static_cast<float>(len);
    for (unsigned int i = 0; i < len; ++i)
    {
        reference[i] = idata[i] * f_len;
    }
}
```

The embedding has four layers.

* `F32`: the values of the C type `float` (IEEE 754 binary32), with the two
  arithmetic operations the function uses: the conversion of an `unsigned int`
  (`F32.ofUInt32`) and the product (`F32.mul`), both rounding to nearest, ties
  to even.  All NaNs are one value `F32.nan`: payloads are not distinguished.
* `LoopState`, `body`, `loop`: the `for` statement, as state passing over the
  two buffers and the 32-bit counter `i`, with the increment taken modulo
  `2 ^ 32`.  A buffer is the list of the cells the pointer may address, so its
  length is its capacity; an access at or beyond the length is the outcome
  `outOfBounds`.  Here the two buffers are two separate objects of the state:
  this is the function on buffers that do not overlap.
* `computeGold`: the function on two separate buffers, returning both as it
  leaves them.
* `MemState`, `bodyAt`, `loopAt`, `computeGoldAt`: the same statements with
  `reference` and `idata` as the source has them, two plain pointers into one
  memory, so that a store to `reference[i]` changes `idata[j]` when the two
  are the same cell.  `computeGoldAt_eq_computeGold` shows that on buffers
  that do not overlap this is `computeGold`; the claims that quantify over all
  buffers are settled on `computeGoldAt`.

`loop` and `loopAt` are defined by recursion on a fuel argument and say
`outOfFuel` when it is exhausted, so that termination is a theorem about the
code and not a property of the definition.
-/

namespace TemplateCpu

/-! ## The type `float` -/

/-- A datum of IEEE 754 binary32.  `num neg expo frac` is the finite number with
sign bit `neg`, biased exponent field `expo` (0 for zeros and subnormals, at
most 254) and 23-bit fraction field `frac`. -/
inductive F32 where
  | nan : F32
  | inf (neg : Bool) : F32
  | num (neg : Bool) (expo : Fin 255) (frac : Fin 8388608) : F32
  deriving DecidableEq, Repr

namespace F32

/-- Integer significand of a finite datum: the hidden bit is set for normal
numbers only. -/
def sig (expo : Fin 255) (frac : Fin 8388608) : Nat :=
  if expo.val = 0 then frac.val else 8388608 + frac.val

/-- Exponent of the last place of a finite datum: its magnitude is
`sig expo frac * 2 ^ qexp expo`. -/
def qexp (expo : Fin 255) : Int :=
  if expo.val = 0 then -149 else (expo.val : Int) - 150

/-- Halve `m` until it is 0, at most `fuel` times, counting the steps. -/
def bitLengthAux : Nat → Nat → Nat
  | 0, _ => 0
  | fuel + 1, m => if m = 0 then 0 else bitLengthAux fuel (m / 2) + 1

/-- Number of binary digits of `m` (0 for 0). -/
def bitLength (m : Nat) : Nat :=
  bitLengthAux m m

/-- Assemble a finite datum from the exponent field `k` and a significand `m`
that may carry into the exponent; at or above the field value 255 the result
is an infinity. -/
def pack (neg : Bool) (k m : Nat) : F32 :=
  if h : k * 8388608 + m < 255 * 8388608 then
    num neg ⟨(k * 8388608 + m) / 8388608, by omega⟩ ⟨(k * 8388608 + m) % 8388608, by omega⟩
  else
    inf neg

/-- The binary32 datum nearest to `(-1) ^ neg * m * 2 ^ e`, ties to even: `q` is
the exponent of the last place of the result, `m0` the significand truncated
to it, `r` what the truncation drops.  Overflow gives an infinity, an exact
zero keeps the sign. -/
def round (neg : Bool) (m : Nat) (e : Int) : F32 :=
  if m = 0 then
    num neg 0 0
  else
    let q : Int := max (e + (bitLength m : Int) - 24) (-149)
    if q ≤ e then
      pack neg (q + 149).toNat (m * 2 ^ (e - q).toNat)
    else
      let sh : Nat := (q - e).toNat
      let m0 : Nat := m / 2 ^ sh
      let r : Nat := m % 2 ^ sh
      let half : Nat := 2 ^ (sh - 1)
      let up : Bool := decide (half < r) || (decide (r = half) && decide (m0 % 2 = 1))
      pack neg (q + 149).toNat (if up then m0 + 1 else m0)

/-- `static_cast<float>(n)` for an `unsigned int` value `n`. -/
def ofUInt32 (n : Nat) : F32 :=
  round false n 0

/-- The product `x * y` of two `float` operands. -/
def mul : F32 → F32 → F32
  | nan, _ => nan
  | _, nan => nan
  | inf s, inf t => inf (xor s t)
  | inf s, num t e f => if sig e f = 0 then nan else inf (xor s t)
  | num s e f, inf t => if sig e f = 0 then nan else inf (xor s t)
  | num s e f, num t e' f' => round (xor s t) (sig e f * sig e' f') (qexp e + qexp e')

/-- The real value of a datum that has one. -/
def toRat : F32 → Option ℚ
  | nan => none
  | inf _ => none
  | num neg e f => some ((if neg then -1 else 1) * (sig e f : ℚ) * (2 : ℚ) ^ qexp e)

/-- Decode a 32-bit pattern. -/
def ofBits (b : Nat) : F32 :=
  let neg : Bool := decide (b / 2147483648 % 2 = 1)
  let e : Nat := b / 8388608 % 256
  let f : Nat := b % 8388608
  if h : e < 255 then num neg ⟨e, h⟩ ⟨f, Nat.mod_lt _ (by decide)⟩
  else if f = 0 then inf neg else nan

end F32

/-! ## The loop -/

/-- What running a piece of code gives: a result, an access outside a buffer,
or no answer within the fuel. -/
inductive Outcome (α : Type) where
  | ok (a : α) : Outcome α
  | outOfBounds : Outcome α
  | outOfFuel : Outcome α
  deriving DecidableEq, Repr

/-- The memory the function works on: the cells `reference[0 ..]` and
`idata[0 ..]` that the two pointers may address. -/
structure Buffers where
  reference : List F32
  idata : List F32
  deriving DecidableEq, Repr

/-- State of the `for` statement: the two buffers and the counter
`unsigned int i`. -/
structure LoopState where
  reference : List F32
  idata : List F32
  i : Nat
  deriving DecidableEq, Repr

/-- A finished run of the loop: the state at exit and the values of `i` at
which the body was executed, in the order of execution. -/
structure Run where
  final : LoopState
  visited : List Nat
  deriving DecidableEq, Repr

/-- The loop body `reference[i] = idata[i] * f_len;`: `none` when `i` is
outside one of the buffers. -/
def body (f_len : F32) (s : LoopState) : Option LoopState :=
  match s.idata[s.i]? with
  | none => none
  | some x =>
    if s.i < s.reference.length then
      some { s with reference := s.reference.set s.i (F32.mul x f_len) }
    else
      none

/-- The increment `++i` of an `unsigned int`. -/
def incr (s : LoopState) : LoopState :=
  { s with i := (s.i + 1) % 4294967296 }

/-- The statement `for (...; i < len; ++i) { body }` from state `s`: one test
of the condition per unit of fuel. -/
def loop (len : Nat) (f_len : F32) : Nat → LoopState → Outcome Run
  | 0, _ => .outOfFuel
  | fuel + 1, s =>
    if s.i < len then
      match body f_len s with
      | none => .outOfBounds
      | some s' =>
        match loop len f_len fuel (incr s') with
        | .ok r => .ok { r with visited := s.i :: r.visited }
        | .outOfBounds => .outOfBounds
        | .outOfFuel => .outOfFuel
    else
      .ok { final := s, visited := [] }

/-- The run of `computeGold(reference, idata, len)`: `f_len` is initialised,
then the loop starts at `i = 0`. -/
def computeGoldRun (fuel : Nat) (reference idata : List F32) (len : Nat) : Outcome Run :=
  let f_len : F32 := F32.ofUInt32 len
  loop len f_len fuel { reference := reference, idata := idata, i := 0 }

/-- The function `computeGold(reference, idata, len)`: the two buffers as the
call leaves them. -/
def computeGold (fuel : Nat) (reference idata : List F32) (len : Nat) : Outcome Buffers :=
  match computeGoldRun fuel reference idata len with
  | .ok r => .ok { reference := r.final.reference, idata := r.final.idata }
  | .outOfBounds => .outOfBounds
  | .outOfFuel => .outOfFuel

/-! ## The loop on one memory

The same statements with the two parameters as they are in the source: plain
pointers into one memory, which may overlap.  The memory is the list of its
`float` cells; a pointer is the number of the cell it points to, so that
`reference[i]` is the cell `reference + i`. -/

/-- State of the `for` statement over one memory: the cells and the counter
`unsigned int i`. -/
structure MemState where
  mem : List F32
  i : Nat
  deriving DecidableEq, Repr

/-- The loop body `reference[i] = idata[i] * f_len;` for the pointers
`reference` and `idata`: the cell `idata + i` is read, then the cell
`reference + i` is written; `none` when one of them is outside the memory. -/
def bodyAt (reference idata : Nat) (f_len : F32) (s : MemState) : Option MemState :=
  match s.mem[idata + s.i]? with
  | none => none
  | some x =>
    if reference + s.i < s.mem.length then
      some { s with mem := s.mem.set (reference + s.i) (F32.mul x f_len) }
    else
      none

/-- The increment `++i` of an `unsigned int`, over one memory. -/
def incrAt (s : MemState) : MemState :=
  { s with i := (s.i + 1) % 4294967296 }

/-- The statement `for (...; i < len; ++i) { body }` over one memory, from
state `s`: one test of the condition per unit of fuel. -/
def loopAt (reference idata len : Nat) (f_len : F32) : Nat → MemState → Outcome MemState
  | 0, _ => .outOfFuel
  | fuel + 1, s =>
    if s.i < len then
      match bodyAt reference idata f_len s with
      | none => .outOfBounds
      | some s' => loopAt reference idata len f_len fuel (incrAt s')
    else
      .ok s

/-- The function `computeGold(reference, idata, len)` called with two pointers
into the memory `mem`: the memory as the call leaves it. -/
def computeGoldAt (fuel : Nat) (mem : List F32) (reference idata len : Nat) :
    Outcome (List F32) :=
  let f_len : F32 := F32.ofUInt32 len
  match loopAt reference idata len f_len fuel { mem := mem, i := 0 } with
  | .ok s => .ok s.mem
  | .outOfBounds => .outOfBounds
  | .outOfFuel => .outOfFuel

/-! ## Data of the worked example -/

/-- The input `[1.0, 2.0, 3.0, 4.0]` (bit patterns `3F800000`, `40000000`,
`40400000`, `40800000`). -/
def exampleInput : List F32 :=
  [.num false 127 0, .num false 128 0, .num false 128 4194304, .num false 129 0]

/-- The list `[4.0, 8.0, 12.0, 16.0]` (bit patterns `40800000`, `41000000`,
`41400000`, `41800000`). -/
def exampleOutput : List F32 :=
  [.num false 129 0, .num false 130 0, .num false 130 4194304, .num false 131 0]

/-- The list `[16.0, 32.0, 48.0, 64.0]` (bit patterns `41800000`, `42000000`,
`42400000`, `42800000`). -/
def exampleOutputTwice : List F32 :=
  [.num false 131 0, .num false 132 0, .num false 132 4194304, .num false 133 0]

/-! ## Arithmetic of `float` -/

theorem F32.bitLengthAux_le (k : Nat) :
    ∀ (fuel m : Nat), m < 2 ^ k → F32.bitLengthAux fuel m ≤ k := by
  induction k with
  | zero =>
    intro fuel m hm
    have : m = 0 := by simpa using hm
    subst this
    cases fuel <;> simp [F32.bitLengthAux]
  | succ k ih =>
    intro fuel m hm
    cases fuel with
    | zero => simp [F32.bitLengthAux]
    | succ fuel =>
      simp only [F32.bitLengthAux]
      split
      · omega
      · have : m / 2 < 2 ^ k := by
          rw [Nat.div_lt_iff_lt_mul (by decide)]
          rw [pow_succ] at hm
          exact hm
        have := ih fuel (m / 2) this
        omega

theorem F32.bitLengthAux_eq (k : Nat) :
    ∀ (fuel m : Nat), 2 ^ k ≤ m → m < 2 ^ (k + 1) → k < fuel →
      F32.bitLengthAux fuel m = k + 1 := by
  induction k with
  | zero =>
    intro fuel m h1 h2 hf
    obtain ⟨fuel, rfl⟩ : ∃ n, fuel = n + 1 := ⟨fuel - 1, by omega⟩
    have hm : m = 1 := by simp at h1 h2; omega
    subst hm
    cases fuel <;> simp [F32.bitLengthAux]
  | succ k ih =>
    intro fuel m h1 h2 hf
    obtain ⟨fuel, rfl⟩ : ∃ n, fuel = n + 1 := ⟨fuel - 1, by omega⟩
    have hpos : 0 < 2 ^ k := Nat.two_pow_pos k
    have e1 : 2 ^ (k + 1) = 2 * 2 ^ k := by rw [pow_succ]; omega
    have e2 : 2 ^ (k + 1 + 1) = 2 * 2 ^ (k + 1) := by rw [pow_succ]; omega
    have hm0 : m ≠ 0 := by omega
    have := ih fuel (m / 2) (by omega) (by omega) (by omega)
    simp [F32.bitLengthAux, hm0, this]

theorem F32.bitLength_eq (k m : Nat) (h1 : 2 ^ k ≤ m) (h2 : m < 2 ^ (k + 1)) :
    F32.bitLength m = k + 1 := by
  have : k < 2 ^ k := Nat.lt_two_pow k
  exact F32.bitLengthAux_eq k m m h1 h2 (by omega)

theorem F32.bitLength_le (k m : Nat) (h : m < 2 ^ k) : F32.bitLength m ≤ k :=
  F32.bitLengthAux_le k m m h

theorem F32.ofUInt32_one : F32.ofUInt32 1 = F32.num false 127 0 := by
  decide

/-- When the bits that `round` drops are all 0, the result is the truncated
significand, unchanged. -/
theorem F32.round_of_exact (neg : Bool) (m : Nat) (e q : Int) (hm : m ≠ 0)
    (hq : max (e + (F32.bitLength m : Int) - 24) (-149) = q) (hlt : e < q)
    (hr : m % 2 ^ (q - e).toNat = 0) :
    F32.round neg m e = F32.pack neg (q + 149).toNat (m / 2 ^ (q - e).toNat) := by
  have hpos : 0 < 2 ^ ((q - e).toNat - 1) := Nat.two_pow_pos _
  have hne : ¬ (0 = 2 ^ ((q - e).toNat - 1)) := by omega
  unfold F32.round
  simp only [hm, if_false, hq, if_neg (not_le.mpr hlt), hr]
  simp [hne]

/-- Multiplying by `1.0f` gives back the operand, for every operand that is not
a NaN. -/
theorem F32.mul_one (x : F32) (hx : x ≠ F32.nan) : F32.mul x (F32.num false 127 0) = x := by
  have hs1 : F32.sig (127 : Fin 255) (0 : Fin 8388608) = 8388608 := by decide
  have hq1 : F32.qexp (127 : Fin 255) = -23 := by decide
  have h23 : (2 : Nat) ^ 23 = 8388608 := by norm_num
  cases x with
  | nan => exact absurd rfl hx
  | inf s => simp [F32.mul, hs1]
  | num s e f =>
    obtain ⟨e, he⟩ := e
    obtain ⟨f, hf⟩ := f
    simp only [F32.mul, hs1, hq1, Bool.xor_false]
    by_cases he0 : e = 0
    · subst he0
      have hsig : F32.sig ⟨0, he⟩ ⟨f, hf⟩ = f := by simp [F32.sig]
      have hqe : F32.qexp ⟨0, he⟩ = -149 := by simp [F32.qexp]
      rw [hsig, hqe]
      by_cases hf0 : f = 0
      · subst hf0
        simp [F32.round]
      · have hbl : F32.bitLength (f * 8388608) ≤ 46 :=
          F32.bitLength_le 46 _ (by norm_num; omega)
        have hsh : ((-149 : Int) - (-149 + -23)).toNat = 23 := by decide
        have hdiv : f * 8388608 / 2 ^ ((-149 : Int) - (-149 + -23)).toNat = f := by
          rw [hsh, h23]; exact Nat.mul_div_cancel f (by decide)
        have hmod : f * 8388608 % 2 ^ ((-149 : Int) - (-149 + -23)).toNat = 0 := by
          rw [hsh, h23]; exact Nat.mul_mod_left f 8388608
        rw [F32.round_of_exact s (f * 8388608) (-149 + -23) (-149) (by omega) (by omega)
          (by omega) hmod, hdiv]
        have hk : ((-149 : Int) + 149).toNat = 0 := by decide
        rw [hk]
        have hlt : 0 * 8388608 + f < 255 * 8388608 := by omega
        simp only [F32.pack, hlt, dite_true]
        congr 1
        · apply Fin.ext; simp; omega
        · apply Fin.ext; simp; omega
    · have hsig : F32.sig ⟨e, he⟩ ⟨f, hf⟩ = 8388608 + f := by simp [F32.sig, he0]
      have hqe : F32.qexp ⟨e, he⟩ = (e : Int) - 150 := by simp [F32.qexp, he0]
      rw [hsig, hqe]
      have hbl : F32.bitLength ((8388608 + f) * 8388608) = 46 + 1 :=
        F32.bitLength_eq 46 _ (by norm_num; omega) (by norm_num; omega)
      have hsh : (((e : Int) - 150) - ((e : Int) - 150 + -23)).toNat = 23 := by omega
      have hdiv : (8388608 + f) * 8388608 / 2 ^ (((e : Int) - 150) - ((e : Int) - 150 + -23)).toNat
          = 8388608 + f := by
        rw [hsh, h23]; exact Nat.mul_div_cancel _ (by decide)
      have hmod : (8388608 + f) * 8388608 % 2 ^ (((e : Int) - 150) - ((e : Int) - 150 + -23)).toNat
          = 0 := by
        rw [hsh, h23]; exact Nat.mul_mod_left _ 8388608
      rw [F32.round_of_exact s ((8388608 + f) * 8388608) ((e : Int) - 150 + -23) ((e : Int) - 150)
        (by omega) (by rw [hbl]; push_cast; omega) (by omega) hmod, hdiv]
      have hk : ((e : Int) - 150 + 149).toNat = e - 1 := by omega
      rw [hk]
      have hlt : (e - 1) * 8388608 + (8388608 + f) < 255 * 8388608 := by omega
      simp only [F32.pack, hlt, dite_true]
      congr 1
      · apply Fin.ext; simp; omega
      · apply Fin.ext; simp; omega

/-- The product agrees with binary32 hardware on sample operands, given as bit
patterns `(x, y, x * y)`: inexact results, ties, subnormal results, overflow,
signed zeros, infinities and the invalid product of an infinity and a zero. -/
theorem F32.mul_samples :
    ∀ t ∈ [(0x3F800001, 0x3F800001, 0x3F800002), (0x3FFFFFFF, 0x3FFFFFFF, 0x407FFFFE),
        (0x00000001, 0x3F000000, 0x00000000), (0x00000003, 0x3F000000, 0x00000002),
        (0x7F7FFFFF, 0x40000000, 0x7F800000), (0x7F800000, 0x00000000, 0xFFC00000),
        (0xBF800000, 0x80000001, 0x00000001), (0x1F800000, 0x20000000, 0x00400000),
        (0x1FFFFFFF, 0x1FFFFFFF, 0x007FFFFF), (0x33800001, 0x4B7FFFFF, 0x3F800000),
        (0x80000000, 0x3F800000, 0x80000000), (0xFF800000, 0xBF800000, 0x7F800000),
        (0x00800001, 0x3EFFFFFF, 0x00400000), (0x5F05AE0F, 0x62149C34, 0x7F800000),
        (0x3205C000, 0x6902A000, 0x5B887E30), (0x640CC000, 0x18EAE000, 0x3D8122A8),
        (0x672FCC8E, 0xE1F48E8D, 0xFF800000), (0x117A3F6D, 0xFC407DC0, 0xCE3C2A7E),
        (0xE9AF9DCD, 0xBF0373F8, 0x69345A9C)],
      F32.mul (F32.ofBits t.1) (F32.ofBits t.2.1) = F32.ofBits t.2.2 := by
  decide

/-- The conversion agrees with binary32 hardware on sample values `(n, (float) n)`,
among them the ties at `2 ^ 24 + 1` and `2 ^ 31 + 128` and the largest
`unsigned int`, which rounds to `2 ^ 32`. -/
theorem F32.ofUInt32_samples :
    ∀ t ∈ [(0, 0x00000000), (1, 0x3F800000), (4, 0x40800000), (16777216, 0x4B800000),
        (16777217, 0x4B800000), (16777219, 0x4B800002), (33554433, 0x4C000000),
        (4294967167, 0x4F7FFFFF), (4294967168, 0x4F800000), (4294967295, 0x4F800000),
        (2147483775, 0x4F000000), (2147483776, 0x4F000000), (2147483777, 0x4F000001)],
      F32.ofUInt32 t.1 = F32.ofBits t.2 := by
  decide

/-! ## The loop, run from any state -/

theorem body_of_inBounds (f_len : F32) (s : LoopState) (x : F32)
    (hx : s.idata[s.i]? = some x) (hr : s.i < s.reference.length) :
    body f_len s = some { s with reference := s.reference.set s.i (F32.mul x f_len) } := by
  simp [body, hx, hr]

theorem loop_ok (len : Nat) (f_len : F32) (hlen : len < 4294967296) :
    ∀ (n fuel : Nat) (s : LoopState), s.i + n = len → n < fuel →
      len ≤ s.reference.length → len ≤ s.idata.length →
      ∃ r : Run, loop len f_len fuel s = .ok r ∧
        r.final.i = len ∧ r.final.idata = s.idata ∧
        r.final.reference.length = s.reference.length ∧
        r.visited = List.range' s.i n ∧
        ∀ j, r.final.reference[j]? =
          if s.i ≤ j ∧ j < len then (s.idata[j]?).map (fun x => F32.mul x f_len)
          else s.reference[j]? := by
  intro n
  induction n with
  | zero =>
    intro fuel s hi hf hr hd
    obtain ⟨fuel, rfl⟩ : ∃ k, fuel = k + 1 := ⟨fuel - 1, by omega⟩
    refine ⟨{ final := s, visited := [] }, ?_, ?_, rfl, rfl, rfl, ?_⟩
    · have : ¬ s.i < len := by omega
      simp [loop, this]
    · simpa using hi
    · intro j
      have : ¬ (s.i ≤ j ∧ j < len) := by omega
      simp [this]
  | succ n ih =>
    intro fuel s hi hf hr hd
    obtain ⟨fuel, rfl⟩ : ∃ k, fuel = k + 1 := ⟨fuel - 1, by omega⟩
    have hlt : s.i < len := by omega
    obtain ⟨x, hx⟩ : ∃ x, s.idata[s.i]? = some x := by
      cases h : s.idata[s.i]? with
      | none => rw [List.getElem?_eq_none_iff] at h; omega
      | some x => exact ⟨x, rfl⟩
    have hb := body_of_inBounds f_len s x hx (by omega)
    have hinc : (s.i + 1) % 4294967296 = s.i + 1 := Nat.mod_eq_of_lt (by omega)
    obtain ⟨r, hrun, h1, h2, h3, h4, h5⟩ :=
      ih fuel (incr { s with reference := s.reference.set s.i (F32.mul x f_len) })
        (by simp [incr, hinc]; omega) (by omega) (by simpa [incr] using hr)
        (by simpa [incr] using hd)
    refine ⟨{ r with visited := s.i :: r.visited }, ?_, h1, ?_, ?_, ?_, ?_⟩
    · simp [loop, hlt, hb, hrun]
    · simpa [incr] using h2
    · simpa [incr] using h3
    · simp [h4, incr, hinc, List.range'_succ]
    · intro j
      rw [h5 j]
      simp only [incr, hinc]
      by_cases hj : j = s.i
      · subst hj
        have hlen' : s.i < s.reference.length := by omega
        simp [hlt, hx, hlen']
      · have e1 : (s.i + 1 ≤ j ∧ j < len) ↔ (s.i ≤ j ∧ j < len) := by omega
        have hj' : s.i ≠ j := fun h => hj h.symm
        simp only [e1, List.getElem?_set_ne hj']

theorem loop_outOfFuel (len : Nat) (f_len : F32) (hlen : len < 4294967296) :
    ∀ (fuel : Nat) (s : LoopState), s.i + fuel ≤ len →
      len ≤ s.reference.length → len ≤ s.idata.length →
      loop len f_len fuel s = .outOfFuel := by
  intro fuel
  induction fuel with
  | zero => intro s _ _ _; rfl
  | succ fuel ih =>
    intro s hi hr hd
    have hlt : s.i < len := by omega
    obtain ⟨x, hx⟩ : ∃ x, s.idata[s.i]? = some x := by
      cases h : s.idata[s.i]? with
      | none => rw [List.getElem?_eq_none_iff] at h; omega
      | some x => exact ⟨x, rfl⟩
    have hb := body_of_inBounds f_len s x hx (by omega)
    have hinc : (s.i + 1) % 4294967296 = s.i + 1 := Nat.mod_eq_of_lt (by omega)
    have := ih (incr { s with reference := s.reference.set s.i (F32.mul x f_len) })
      (by simp [incr, hinc]; omega) (by simpa [incr] using hr) (by simpa [incr] using hd)
    simp [loop, hlt, hb, this]

theorem body_counter (f_len : F32) (s s' : LoopState) (h : body f_len s = some s') :
    s'.i = s.i := by
  unfold body at h
  split at h
  · exact absurd h (by simp)
  · split at h
    · cases h; rfl
    · exact absurd h (by simp)

theorem loop_ne_outOfFuel (len : Nat) (f_len : F32) (hlen : len < 4294967296) :
    ∀ (n fuel : Nat) (s : LoopState), s.i + n = len → n < fuel →
      loop len f_len fuel s ≠ .outOfFuel := by
  intro n
  induction n with
  | zero =>
    intro fuel s hi hf
    obtain ⟨fuel, rfl⟩ : ∃ k, fuel = k + 1 := ⟨fuel - 1, by omega⟩
    have : ¬ s.i < len := by omega
    simp [loop, this]
  | succ n ih =>
    intro fuel s hi hf
    obtain ⟨fuel, rfl⟩ : ∃ k, fuel = k + 1 := ⟨fuel - 1, by omega⟩
    have hlt : s.i < len := by omega
    have hinc : (s.i + 1) % 4294967296 = s.i + 1 := Nat.mod_eq_of_lt (by omega)
    cases hb : body f_len s with
    | none => simp [loop, hlt, hb]
    | some s' =>
      have hc := body_counter f_len s s' hb
      have := ih fuel (incr s') (by simp [incr, hc, hinc]; omega) (by omega)
      simp only [loop, hlt, hb, if_true]
      cases hl : loop len f_len fuel (incr s') with
      | ok r => simp
      | outOfBounds => simp
      | outOfFuel => exact absurd hl this

/-! ## The function -/

theorem computeGoldRun_ok (fuel : Nat) (reference idata : List F32) (len : Nat)
    (hlen : len < 4294967296) (hfuel : len < fuel)
    (hr : len ≤ reference.length) (hi : len ≤ idata.length) :
    ∃ r : Run, computeGoldRun fuel reference idata len = .ok r ∧
      r.final.i = len ∧ r.final.idata = idata ∧
      r.final.reference.length = reference.length ∧
      r.visited = List.range len ∧
      ∀ j, r.final.reference[j]? =
        if j < len then (idata[j]?).map (fun x => F32.mul x (F32.ofUInt32 len))
        else reference[j]? := by
  obtain ⟨r, h0, h1, h2, h3, h4, h5⟩ :=
    loop_ok len (F32.ofUInt32 len) hlen len fuel
      { reference := reference, idata := idata, i := 0 } (by simp) hfuel hr hi
  refine ⟨r, h0, h1, h2, h3, ?_, ?_⟩
  · simpa [List.range_eq_range'] using h4
  · intro j
    simpa using h5 j

theorem computeGold_ok (fuel : Nat) (reference idata : List F32) (len : Nat)
    (hlen : len < 4294967296) (hfuel : len < fuel)
    (hr : len ≤ reference.length) (hi : len ≤ idata.length) :
    ∃ out : Buffers, computeGold fuel reference idata len = .ok out ∧
      out.idata = idata ∧ out.reference.length = reference.length ∧
      ∀ j, out.reference[j]? =
        if j < len then (idata[j]?).map (fun x => F32.mul x (F32.ofUInt32 len))
        else reference[j]? := by
  obtain ⟨r, h0, _, h2, h3, _, h5⟩ :=
    computeGoldRun_ok fuel reference idata len hlen hfuel hr hi
  exact ⟨{ reference := r.final.reference, idata := r.final.idata },
    by simp [computeGold, h0], h2, h3, h5⟩

/-- Closed form of the output buffer: the first `len` cells hold the products,
the rest is as it was. -/
theorem computeGold_eq (fuel : Nat) (reference idata : List F32) (len : Nat)
    (hlen : len < 4294967296) (hfuel : len < fuel)
    (hr : len ≤ reference.length) (hi : len ≤ idata.length) :
    computeGold fuel reference idata len =
      .ok { reference := (idata.take len).map (fun x => F32.mul x (F32.ofUInt32 len))
                           ++ reference.drop len,
            idata := idata } := by
  obtain ⟨out, h0, h1, h2, h3⟩ := computeGold_ok fuel reference idata len hlen hfuel hr hi
  rw [h0]
  obtain ⟨ref', id'⟩ := out
  simp only at h1 h2 h3
  subst h1
  congr 2
  apply List.ext_getElem?
  intro j
  rw [h3 j]
  by_cases hj : j < len
  · have hj' : j < ((id'.take len).map (fun x => F32.mul x (F32.ofUInt32 len))).length := by
      simp; omega
    rw [List.getElem?_append_left hj']
    simp [hj, List.getElem?_take]
  · have hj' : ((id'.take len).map (fun x => F32.mul x (F32.ofUInt32 len))).length ≤ j := by
      simp; omega
    rw [List.getElem?_append_right hj']
    have e : min len id'.length = len := by omega
    simp [hj, e]
    congr 1
    omega

/-! ## The loop on one memory, run from any state -/

theorem bodyAt_of_inBounds (reference idata : Nat) (f_len : F32) (s : MemState) (x : F32)
    (hx : s.mem[idata + s.i]? = some x) (hr : reference + s.i < s.mem.length) :
    bodyAt reference idata f_len s =
      some { s with mem := s.mem.set (reference + s.i) (F32.mul x f_len) } := by
  simp [bodyAt, hx, hr]

theorem loopAt_ok (reference idata len : Nat) (f_len : F32) (hlen : len < 4294967296)
    (hsep : reference + len ≤ idata ∨ idata + len ≤ reference) :
    ∀ (n fuel : Nat) (s : MemState), s.i + n = len → n < fuel →
      reference + len ≤ s.mem.length → idata + len ≤ s.mem.length →
      ∃ t : MemState, loopAt reference idata len f_len fuel s = .ok t ∧
        t.i = len ∧ t.mem.length = s.mem.length ∧
        ∀ a, t.mem[a]? =
          if reference + s.i ≤ a ∧ a < reference + len then
            (s.mem[idata + (a - reference)]?).map (fun x => F32.mul x f_len)
          else s.mem[a]? := by
  intro n
  induction n with
  | zero =>
    intro fuel s hi hf hr hd
    obtain ⟨fuel, rfl⟩ : ∃ k, fuel = k + 1 := ⟨fuel - 1, by omega⟩
    refine ⟨s, ?_, by omega, rfl, ?_⟩
    · have : ¬ s.i < len := by omega
      simp [loopAt, this]
    · intro a
      have : ¬ (reference + s.i ≤ a ∧ a < reference + len) := by omega
      simp [this]
  | succ n ih =>
    intro fuel s hi hf hr hd
    obtain ⟨fuel, rfl⟩ : ∃ k, fuel = k + 1 := ⟨fuel - 1, by omega⟩
    have hlt : s.i < len := by omega
    obtain ⟨x, hx⟩ : ∃ x, s.mem[idata + s.i]? = some x := by
      cases h : s.mem[idata + s.i]? with
      | none => rw [List.getElem?_eq_none_iff] at h; omega
      | some x => exact ⟨x, rfl⟩
    have hb := bodyAt_of_inBounds reference idata f_len s x hx (by omega)
    have hinc : (s.i + 1) % 4294967296 = s.i + 1 := Nat.mod_eq_of_lt (by omega)
    obtain ⟨t, hrun, h1, h2, h3⟩ :=
      ih fuel (incrAt { s with mem := s.mem.set (reference + s.i) (F32.mul x f_len) })
        (by simp [incrAt, hinc]; omega) (by omega) (by simpa [incrAt] using hr)
        (by simpa [incrAt] using hd)
    refine ⟨t, ?_, h1, ?_, ?_⟩
    · simp [loopAt, hlt, hb, hrun]
    · simpa [incrAt] using h2
    · intro a
      rw [h3 a]
      simp only [incrAt, hinc]
      by_cases ha : a = reference + s.i
      · subst ha
        have hin : reference + s.i < s.mem.length := by omega
        have c1 : ¬ (reference + (s.i + 1) ≤ reference + s.i ∧
            reference + s.i < reference + len) := by omega
        have c2 : reference + s.i ≤ reference + s.i ∧ reference + s.i < reference + len := by
          omega
        have e : reference + s.i - reference = s.i := by omega
        simp [c1, c2, e, hx, hin]
      · have hne : reference + s.i ≠ a := fun h => ha h.symm
        by_cases hc : reference + s.i ≤ a ∧ a < reference + len
        · have c1 : reference + (s.i + 1) ≤ a ∧ a < reference + len := by omega
          have hne2 : reference + s.i ≠ idata + (a - reference) := by omega
          simp only [c1, hc, and_self, if_true, List.getElem?_set_ne hne2]
        · have c1 : ¬ (reference + (s.i + 1) ≤ a ∧ a < reference + len) := by omega
          simp only [c1, hc, if_false, List.getElem?_set_ne hne]

theorem computeGoldAt_ok (fuel : Nat) (mem : List F32) (reference idata len : Nat)
    (hlen : len < 4294967296) (hfuel : len < fuel)
    (hr : reference + len ≤ mem.length) (hi : idata + len ≤ mem.length)
    (hsep : reference + len ≤ idata ∨ idata + len ≤ reference) :
    ∃ out : List F32, computeGoldAt fuel mem reference idata len = .ok out ∧
      out.length = mem.length ∧
      ∀ a, out[a]? =
        if reference ≤ a ∧ a < reference + len then
          (mem[idata + (a - reference)]?).map (fun x => F32.mul x (F32.ofUInt32 len))
        else mem[a]? := by
  obtain ⟨t, h0, _, h2, h3⟩ :=
    loopAt_ok reference idata len (F32.ofUInt32 len) hlen hsep len fuel
      { mem := mem, i := 0 } (by simp) hfuel hr hi
  refine ⟨t.mem, by simp [computeGoldAt, h0], h2, ?_⟩
  intro a
  simpa using h3 a

/-- On buffers that do not overlap, the run over one memory and the run over
two separate buffers are the same computation: cut out of the memory, before
and after the call, the two buffers are the arguments and the result of
`computeGold`, and no other cell of the memory changes. -/
theorem computeGoldAt_eq_computeGold (fuel : Nat) (mem : List F32) (reference idata len : Nat)
    (hlen : len < 4294967296) (hfuel : len < fuel)
    (hr : reference + len ≤ mem.length) (hi : idata + len ≤ mem.length)
    (hsep : reference + len ≤ idata ∨ idata + len ≤ reference) :
    ∃ out : List F32, computeGoldAt fuel mem reference idata len = .ok out ∧
      computeGold fuel ((mem.drop reference).take len) ((mem.drop idata).take len) len =
        .ok { reference := (out.drop reference).take len,
              idata := (out.drop idata).take len } ∧
      ∀ a, ¬ (reference ≤ a ∧ a < reference + len) → out[a]? = mem[a]? := by
  obtain ⟨out, h0, h1, h2⟩ :=
    computeGoldAt_ok fuel mem reference idata len hlen hfuel hr hi hsep
  refine ⟨out, h0, ?_, ?_⟩
  · rw [computeGold_eq fuel _ _ len hlen hfuel (by simp; omega) (by simp; omega)]
    congr 2
    · apply List.ext_getElem?
      intro j
      by_cases hj : j < len
      · have c : reference ≤ reference + j ∧ reference + j < reference + len := by omega
        have e : reference + j - reference = j := by omega
        simp [List.getElem?_append, List.getElem?_take, List.getElem?_drop, hj, h2, c, e]
        intro hlt
        omega
      · simp [List.getElem?_append, List.getElem?_take, List.getElem?_drop, hj]
    · apply List.ext_getElem?
      intro j
      by_cases hj : j < len
      · have c : ¬ (reference ≤ idata + j ∧ idata + j < reference + len) := by omega
        simp [List.getElem?_take, List.getElem?_drop, hj, h2, c]
      · simp [List.getElem?_take, hj]
  · intro a ha
    rw [h2 a]
    simp [ha]

/-! ## The value of the example data -/

theorem exampleInput_toRat :
    exampleInput.map F32.toRat = [some 1, some 2, some 3, some 4] := by
  norm_num [exampleInput, F32.toRat, F32.sig, F32.qexp, Fin.coe_ofNat_eq_mod]

theorem exampleOutput_toRat :
    exampleOutput.map F32.toRat = [some 4, some 8, some 12, some 16] := by
  norm_num [exampleOutput, F32.toRat, F32.sig, F32.qexp, Fin.coe_ofNat_eq_mod]

theorem exampleOutputTwice_toRat :
    exampleOutputTwice.map F32.toRat = [some 16, some 32, some 48, some 64] := by
  norm_num [exampleOutputTwice, F32.toRat, F32.sig, F32.qexp, Fin.coe_ofNat_eq_mod]

theorem exampleInput_ofBits :
    [0x3F800000, 0x40000000, 0x40400000, 0x40800000].map F32.ofBits = exampleInput := by
  decide

theorem exampleOutput_ofBits :
    [0x40800000, 0x41000000, 0x41400000, 0x41800000].map F32.ofBits = exampleOutput := by
  decide

theorem exampleOutputTwice_ofBits :
    [0x41800000, 0x42000000, 0x42400000, 0x42800000].map F32.ofBits = exampleOutputTwice := by
  decide

/-! ## The claims -/

/-- C1 as stated fails on buffers that overlap.  With `reference = idata + 1`,
`len = 2` and the memory `[1.0, 1.0, 1.0]` the call leaves `[1.0, 2.0, 4.0]`:
`reference[1]` is `4.0`, not the product `2.0` of the `idata[1] = 1.0` passed in
and `f_len = 2.0`.  With `reference = idata` and the memory `[1.0, 1.0]` it
leaves `[2.0, 2.0]`: `reference[0]` is `2.0`, not the product `4.0` of the
`idata[0] = 2.0` found after the call and `f_len`. -/
theorem computeGoldAt_elementwise_overlap :
    computeGoldAt 3 [F32.num false 127 0, F32.num false 127 0, F32.num false 127 0] 1 0 2 =
        .ok [F32.num false 127 0, F32.num false 128 0, F32.num false 129 0] ∧
      [F32.num false 127 0, F32.num false 127 0, F32.num false 127 0][0 + 1]? =
        some (F32.num false 127 0) ∧
      [F32.num false 127 0, F32.num false 128 0, F32.num false 129 0][1 + 1]? ≠
        some (F32.mul (F32.num false 127 0) (F32.ofUInt32 2)) ∧
      computeGoldAt 3 [F32.num false 127 0, F32.num false 127 0] 0 0 2 =
        .ok [F32.num false 128 0, F32.num false 128 0] ∧
      [F32.num false 128 0, F32.num false 128 0][0 + 0]? ≠
        some (F32.mul (F32.num false 128 0) (F32.ofUInt32 2)) ∧
      [F32.num false 127 0, F32.num false 128 0, F32.num false 129 0].map F32.toRat =
        [some 1, some 2, some 4] := by
  refine ⟨by decide, by decide, by decide, by decide, by decide, ?_⟩
  norm_num [F32.toRat, F32.sig, F32.qexp, Fin.coe_ofNat_eq_mod]

/-- C1, amended: for every 32-bit `len` and pointers `reference`, `idata` to
buffers of capacity at least `len` that do not overlap, the call returns, and
afterwards every cell `reference[i]` with `i < len` holds `idata[i] * f_len`,
the binary32 product of the input cell (which the call leaves as it was) and
of `len` converted to `float`. -/
theorem computeGoldAt_elementwise (fuel : Nat) (mem : List F32) (reference idata len : Nat)
    (hlen : len < 4294967296) (hfuel : len < fuel)
    (hr : reference + len ≤ mem.length) (hi : idata + len ≤ mem.length)
    (hsep : reference + len ≤ idata ∨ idata + len ≤ reference) :
    ∃ out : List F32, computeGoldAt fuel mem reference idata len = .ok out ∧
      ∀ i, i < len → ∃ x, mem[idata + i]? = some x ∧
        out[reference + i]? = some (F32.mul x (F32.ofUInt32 len)) ∧
        out[idata + i]? = some x := by
  obtain ⟨out, h0, _, h2⟩ :=
    computeGoldAt_ok fuel mem reference idata len hlen hfuel hr hi hsep
  refine ⟨out, h0, ?_⟩
  intro i hlt
  obtain ⟨x, hx⟩ : ∃ x, mem[idata + i]? = some x := by
    cases h : mem[idata + i]? with
    | none => rw [List.getElem?_eq_none_iff] at h; omega
    | some x => exact ⟨x, rfl⟩
  refine ⟨x, hx, ?_, ?_⟩
  · have c : reference ≤ reference + i ∧ reference + i < reference + len := by omega
    have e : reference + i - reference = i := by omega
    rw [h2 (reference + i)]
    simp [c, e, hx]
  · have c : ¬ (reference ≤ idata + i ∧ idata + i < reference + len) := by omega
    rw [h2 (idata + i)]
    simp [c, hx]

theorem computeGoldAt_elementwise_witness :
    (2 < 4294967296 ∧ 2 < 3 ∧
      2 + 2 ≤ [F32.num false 127 0, F32.num true 0 1, F32.nan, F32.inf true].length ∧
      0 + 2 ≤ [F32.num false 127 0, F32.num true 0 1, F32.nan, F32.inf true].length ∧
      (2 + 2 ≤ 0 ∨ 0 + 2 ≤ 2)) ∧
    ∃ out : List F32,
      computeGoldAt 3 [F32.num false 127 0, F32.num true 0 1, F32.nan, F32.inf true] 2 0 2
        = .ok out ∧
      ∀ i, i < 2 → ∃ x,
        [F32.num false 127 0, F32.num true 0 1, F32.nan, F32.inf true][0 + i]? = some x ∧
        out[2 + i]? = some (F32.mul x (F32.ofUInt32 2)) ∧
        out[0 + i]? = some x :=
  ⟨by decide,
   computeGoldAt_elementwise 3 [F32.num false 127 0, F32.num true 0 1, F32.nan, F32.inf true]
     2 0 2 (by decide) (by decide) (by decide) (by decide) (by decide)⟩

/-- C2: with `len == 0` the body is never executed and the call returns both
buffers exactly as it received them, whatever their capacities (empty
included). -/
theorem computeGold_len_zero (fuel : Nat) (reference idata : List F32) (hfuel : 0 < fuel) :
    computeGoldRun fuel reference idata 0 =
        .ok { final := { reference := reference, idata := idata, i := 0 }, visited := [] } ∧
      computeGold fuel reference idata 0 = .ok { reference := reference, idata := idata } := by
  obtain ⟨fuel, rfl⟩ : ∃ k, fuel = k + 1 := ⟨fuel - 1, by omega⟩
  constructor
  · simp [computeGoldRun, loop]
  · simp [computeGold, computeGoldRun, loop]

theorem computeGold_len_zero_witness :
    0 < 1 ∧
    (computeGoldRun 1 [] [F32.inf false] 0 =
        .ok { final := { reference := [], idata := [F32.inf false], i := 0 }, visited := [] } ∧
      computeGold 1 [] [F32.inf false] 0 = .ok { reference := [], idata := [F32.inf false] }) :=
  ⟨by decide, computeGold_len_zero 1 [] [F32.inf false] (by decide)⟩

/-- C3: the call changes nothing but `reference[0 .. len)`: for two separate
buffers of capacity at least `len`, the input buffer `idata` comes back equal
to what it was, and every cell `reference[j]` with `j >= len` keeps its
value. -/
theorem computeGold_frame (fuel : Nat) (reference idata : List F32) (len : Nat)
    (hlen : len < 4294967296) (hfuel : len < fuel)
    (hr : len ≤ reference.length) (hi : len ≤ idata.length) :
    ∃ out : Buffers, computeGold fuel reference idata len = .ok out ∧
      out.idata = idata ∧
      ∀ j, len ≤ j → out.reference[j]? = reference[j]? := by
  obtain ⟨out, h0, h1, _, h3⟩ := computeGold_ok fuel reference idata len hlen hfuel hr hi
  refine ⟨out, h0, h1, ?_⟩
  intro j hj
  have : ¬ j < len := by omega
  rw [h3 j]
  simp [this]

theorem computeGold_frame_witness :
    (1 < 4294967296 ∧ 1 < 2 ∧ 1 ≤ [F32.nan, F32.inf true].length ∧
      1 ≤ [F32.num false 127 0, F32.num true 0 1].length) ∧
    ∃ out : Buffers,
      computeGold 2 [F32.nan, F32.inf true] [F32.num false 127 0, F32.num true 0 1] 1
        = .ok out ∧
      out.idata = [F32.num false 127 0, F32.num true 0 1] ∧
      ∀ j, 1 ≤ j → out.reference[j]? = [F32.nan, F32.inf true][j]? :=
  ⟨by decide,
   computeGold_frame 2 [F32.nan, F32.inf true] [F32.num false 127 0, F32.num true 0 1] 1
     (by decide) (by decide) (by decide) (by decide)⟩

/-- C4 as stated fails when an output buffer overlaps the input.  Both calls
get `idata = [1.0, 1.0]` and `len = 2`.  The first, with `reference` two cells
after `idata` in `[1.0, 1.0, NaN, NaN]`, writes `reference = [2.0, 2.0]`; the
second, with `reference = idata + 1` in `[1.0, 1.0, 1.0]`, writes
`reference = [2.0, 4.0]`: the two differ at index 1. -/
theorem computeGoldAt_deterministic_overlap :
    computeGoldAt 3 [F32.num false 127 0, F32.num false 127 0, F32.nan, F32.nan] 2 0 2 =
        .ok [F32.num false 127 0, F32.num false 127 0, F32.num false 128 0,
          F32.num false 128 0] ∧
      computeGoldAt 3 [F32.num false 127 0, F32.num false 127 0, F32.num false 127 0] 1 0 2 =
        .ok [F32.num false 127 0, F32.num false 128 0, F32.num false 129 0] ∧
      (∀ i, i < 2 →
        [F32.num false 127 0, F32.num false 127 0, F32.nan, F32.nan][0 + i]? =
          [F32.num false 127 0, F32.num false 127 0, F32.num false 127 0][0 + i]?) ∧
      [F32.num false 127 0, F32.num false 127 0, F32.num false 128 0,
          F32.num false 128 0][2 + 1]? ≠
        [F32.num false 127 0, F32.num false 128 0, F32.num false 129 0][1 + 1]? := by
  refine ⟨by decide, by decide, ?_, by decide⟩
  intro i hi
  have h : i = 0 ∨ i = 1 := by omega
  rcases h with rfl | rfl <;> rfl

/-- C4, amended: two calls with the same contents of `idata[0 .. len)` and the
same `len`, each on an output buffer of capacity at least `len` that does not
overlap its input (whatever the memories held elsewhere, whatever the fuel),
both return and agree at every index below `len`. -/
theorem computeGoldAt_deterministic (fuel₁ fuel₂ : Nat) (mem₁ mem₂ : List F32)
    (reference₁ idata₁ reference₂ idata₂ len : Nat)
    (hlen : len < 4294967296) (hfuel₁ : len < fuel₁) (hfuel₂ : len < fuel₂)
    (hr₁ : reference₁ + len ≤ mem₁.length) (hi₁ : idata₁ + len ≤ mem₁.length)
    (hr₂ : reference₂ + len ≤ mem₂.length) (hi₂ : idata₂ + len ≤ mem₂.length)
    (hsep₁ : reference₁ + len ≤ idata₁ ∨ idata₁ + len ≤ reference₁)
    (hsep₂ : reference₂ + len ≤ idata₂ ∨ idata₂ + len ≤ reference₂)
    (hsame : ∀ i, i < len → mem₁[idata₁ + i]? = mem₂[idata₂ + i]?) :
    ∃ out₁ out₂ : List F32,
      computeGoldAt fuel₁ mem₁ reference₁ idata₁ len = .ok out₁ ∧
      computeGoldAt fuel₂ mem₂ reference₂ idata₂ len = .ok out₂ ∧
      ∀ i, i < len → out₁[reference₁ + i]? = out₂[reference₂ + i]? := by
  obtain ⟨out₁, h0, _, h2⟩ :=
    computeGoldAt_ok fuel₁ mem₁ reference₁ idata₁ len hlen hfuel₁ hr₁ hi₁ hsep₁
  obtain ⟨out₂, k0, _, k2⟩ :=
    computeGoldAt_ok fuel₂ mem₂ reference₂ idata₂ len hlen hfuel₂ hr₂ hi₂ hsep₂
  refine ⟨out₁, out₂, h0, k0, ?_⟩
  intro i hlt
  have c₁ : reference₁ ≤ reference₁ + i ∧ reference₁ + i < reference₁ + len := by omega
  have c₂ : reference₂ ≤ reference₂ + i ∧ reference₂ + i < reference₂ + len := by omega
  have e₁ : reference₁ + i - reference₁ = i := by omega
  have e₂ : reference₂ + i - reference₂ = i := by omega
  rw [h2 (reference₁ + i), k2 (reference₂ + i)]
  simp only [c₁, c₂, e₁, e₂, and_self, if_true, hsame i hlt]

theorem computeGoldAt_deterministic_witness :
    (2 < 4294967296 ∧ 2 < 3 ∧ 2 < 7 ∧
      2 + 2 ≤ [F32.num false 127 0, F32.num true 0 1, F32.nan, F32.inf true].length ∧
      0 + 2 ≤ [F32.num false 127 0, F32.num true 0 1, F32.nan, F32.inf true].length ∧
      0 + 2 ≤ [F32.num false 3 5, F32.num true 0 0, F32.nan, F32.num false 127 0,
        F32.num true 0 1].length ∧
      3 + 2 ≤ [F32.num false 3 5, F32.num true 0 0, F32.nan, F32.num false 127 0,
        F32.num true 0 1].length ∧
      (2 + 2 ≤ 0 ∨ 0 + 2 ≤ 2) ∧ (0 + 2 ≤ 3 ∨ 3 + 2 ≤ 0) ∧
      ∀ i, i < 2 →
        [F32.num false 127 0, F32.num true 0 1, F32.nan, F32.inf true][0 + i]? =
          [F32.num false 3 5, F32.num true 0 0, F32.nan, F32.num false 127 0,
            F32.num true 0 1][3 + i]?) ∧
    ∃ out₁ out₂ : List F32,
      computeGoldAt 3 [F32.num false 127 0, F32.num true 0 1, F32.nan, F32.inf true] 2 0 2
        = .ok out₁ ∧
      computeGoldAt 7 [F32.num false 3 5, F32.num true 0 0, F32.nan, F32.num false 127 0,
        F32.num true 0 1] 0 3 2 = .ok out₂ ∧
      ∀ i, i < 2 → out₁[2 + i]? = out₂[0 + i]? :=
  ⟨by decide,
   computeGoldAt_deterministic 3 7
     [F32.num false 127 0, F32.num true 0 1, F32.nan, F32.inf true]
     [F32.num false 3 5, F32.num true 0 0, F32.nan, F32.num false 127 0, F32.num true 0 1]
     2 0 0 3 2 (by decide) (by decide) (by decide) (by decide) (by decide) (by decide)
     (by decide) (by decide) (by decide) (by decide)⟩

/-- C5: when both buffers have capacity at least `len`, no amount of fuel makes
the call end in `outOfBounds`, and with fuel above `len` it returns: every
index at which the body ran, that is every cell read from `idata` and written
to `reference`, is below `len` and inside both buffers. -/
theorem computeGold_in_bounds (reference idata : List F32) (len : Nat)
    (hlen : len < 4294967296)
    (hr : len ≤ reference.length) (hi : len ≤ idata.length) :
    (∀ fuel, computeGold fuel reference idata len ≠ .outOfBounds) ∧
    ∀ fuel, len < fuel →
      ∃ (r : Run) (out : Buffers),
        computeGoldRun fuel reference idata len = .ok r ∧
        computeGold fuel reference idata len = .ok out ∧
        ∀ j ∈ r.visited, j < len ∧ j < idata.length ∧ j < reference.length := by
  constructor
  · intro fuel
    by_cases hf : len < fuel
    · obtain ⟨out, h0, _⟩ := computeGold_ok fuel reference idata len hlen hf hr hi
      rw [h0]
      simp
    · have := loop_outOfFuel len (F32.ofUInt32 len) hlen fuel
        { reference := reference, idata := idata, i := 0 } (by simp; omega) hr hi
      simp [computeGold, computeGoldRun, this]
  · intro fuel hf
    obtain ⟨r, h0, _, _, _, h4, _⟩ := computeGoldRun_ok fuel reference idata len hlen hf hr hi
    refine ⟨r, { reference := r.final.reference, idata := r.final.idata }, h0,
      by simp [computeGold, h0], ?_⟩
    intro j hj
    rw [h4, List.mem_range] at hj
    omega

theorem computeGold_in_bounds_witness :
    (2 < 4294967296 ∧ 2 ≤ [F32.nan, F32.inf true, F32.nan].length ∧
      2 ≤ [F32.num false 127 0, F32.num true 0 1].length) ∧
    ((∀ fuel, computeGold fuel [F32.nan, F32.inf true, F32.nan]
        [F32.num false 127 0, F32.num true 0 1] 2 ≠ .outOfBounds) ∧
    ∀ fuel, 2 < fuel →
      ∃ (r : Run) (out : Buffers),
        computeGoldRun fuel [F32.nan, F32.inf true, F32.nan]
          [F32.num false 127 0, F32.num true 0 1] 2 = .ok r ∧
        computeGold fuel [F32.nan, F32.inf true, F32.nan]
          [F32.num false 127 0, F32.num true 0 1] 2 = .ok out ∧
        ∀ j ∈ r.visited, j < 2 ∧ j < [F32.num false 127 0, F32.num true 0 1].length ∧
          j < [F32.nan, F32.inf true, F32.nan].length) :=
  ⟨by decide,
   computeGold_in_bounds [F32.nan, F32.inf true, F32.nan]
     [F32.num false 127 0, F32.num true 0 1] 2 (by decide) (by decide) (by decide)⟩

/-- C6: the call returns buffers of the lengths it received; hence, when
`reference` and `idata` both have length `len` on entry, the output has length
exactly `len`, the length of the input. -/
theorem computeGold_length (fuel : Nat) (reference idata : List F32) (len : Nat)
    (hlen : len < 4294967296) (hfuel : len < fuel)
    (hr : len ≤ reference.length) (hi : len ≤ idata.length) :
    ∃ out : Buffers, computeGold fuel reference idata len = .ok out ∧
      out.reference.length = reference.length ∧
      out.idata.length = idata.length ∧
      (reference.length = len → idata.length = len →
        out.reference.length = len ∧ out.reference.length = out.idata.length) := by
  obtain ⟨out, h0, h1, h2, _⟩ := computeGold_ok fuel reference idata len hlen hfuel hr hi
  refine ⟨out, h0, h2, by rw [h1], ?_⟩
  intro e₁ e₂
  rw [h2, h1]
  omega

theorem computeGold_length_witness :
    (2 < 4294967296 ∧ 2 < 3 ∧ 2 ≤ [F32.nan, F32.inf true].length ∧
      2 ≤ [F32.num false 127 0, F32.num true 0 1].length) ∧
    ∃ out : Buffers,
      computeGold 3 [F32.nan, F32.inf true] [F32.num false 127 0, F32.num true 0 1] 2
        = .ok out ∧
      out.reference.length = [F32.nan, F32.inf true].length ∧
      out.idata.length = [F32.num false 127 0, F32.num true 0 1].length ∧
      ([F32.nan, F32.inf true].length = 2 →
        [F32.num false 127 0, F32.num true 0 1].length = 2 →
        out.reference.length = 2 ∧ out.reference.length = out.idata.length) :=
  ⟨by decide,
   computeGold_length 3 [F32.nan, F32.inf true] [F32.num false 127 0, F32.num true 0 1] 2
     (by decide) (by decide) (by decide) (by decide)⟩

/-- C7: on `idata = [1.0, 2.0, 3.0, 4.0]` with `len = 4`, whatever the four
cells of `reference` held, the call returns with
`reference = [4.0, 8.0, 12.0, 16.0]` and `idata` as it was; the lists named here
have exactly these real values. -/
theorem computeGold_example (fuel : Nat) (reference : List F32)
    (hfuel : 4 < fuel) (hr : reference.length = 4) :
    computeGold fuel reference exampleInput 4 =
        .ok { reference := exampleOutput, idata := exampleInput } ∧
      exampleInput.map F32.toRat = [some 1, some 2, some 3, some 4] ∧
      exampleOutput.map F32.toRat = [some 4, some 8, some 12, some 16] := by
  refine ⟨?_, exampleInput_toRat, exampleOutput_toRat⟩
  rw [computeGold_eq fuel reference exampleInput 4 (by decide) hfuel (by omega) (by decide)]
  have hd : reference.drop 4 = [] := List.drop_eq_nil_of_le (by omega)
  have hm : (exampleInput.take 4).map (fun x => F32.mul x (F32.ofUInt32 4)) = exampleOutput := by
    decide
  rw [hd, hm, List.append_nil]

theorem computeGold_example_witness :
    (4 < 5 ∧ [F32.nan, F32.nan, F32.nan, F32.nan].length = 4) ∧
    (computeGold 5 [F32.nan, F32.nan, F32.nan, F32.nan] exampleInput 4 =
        .ok { reference := exampleOutput, idata := exampleInput } ∧
      exampleInput.map F32.toRat = [some 1, some 2, some 3, some 4] ∧
      exampleOutput.map F32.toRat = [some 4, some 8, some 12, some 16]) :=
  ⟨by decide, computeGold_example 5 [F32.nan, F32.nan, F32.nan, F32.nan] (by decide) (by decide)⟩

/-- C8: the transform is not idempotent: on `idata = [1.0, 2.0, 3.0, 4.0]`,
`len = 4` the first call writes `[4.0, 8.0, 12.0, 16.0]`; a second call with
that output as its input and the same `len` writes `[16.0, 32.0, 48.0, 64.0]`,
which differs from the first output. -/
theorem computeGold_not_idempotent (fuel : Nat) (reference₁ reference₂ : List F32)
    (hfuel : 4 < fuel) (hr₁ : reference₁.length = 4) (hr₂ : reference₂.length = 4) :
    ∃ out₁ out₂ : Buffers,
      computeGold fuel reference₁ exampleInput 4 = .ok out₁ ∧
      computeGold fuel reference₂ out₁.reference 4 = .ok out₂ ∧
      out₁.reference = exampleOutput ∧
      out₂.reference = exampleOutputTwice ∧
      out₂.reference ≠ out₁.reference ∧
      exampleOutputTwice.map F32.toRat = [some 16, some 32, some 48, some 64] := by
  have hd₁ : reference₁.drop 4 = [] := List.drop_eq_nil_of_le (by omega)
  have hd₂ : reference₂.drop 4 = [] := List.drop_eq_nil_of_le (by omega)
  have hm₁ : (exampleInput.take 4).map (fun x => F32.mul x (F32.ofUInt32 4)) = exampleOutput := by
    decide
  have hm₂ : (exampleOutput.take 4).map (fun x => F32.mul x (F32.ofUInt32 4))
      = exampleOutputTwice := by
    decide
  refine ⟨{ reference := exampleOutput, idata := exampleInput },
    { reference := exampleOutputTwice, idata := exampleOutput }, ?_, ?_, rfl, rfl, by decide,
    exampleOutputTwice_toRat⟩
  · rw [computeGold_eq fuel reference₁ exampleInput 4 (by decide) hfuel (by omega) (by decide),
      hd₁, hm₁, List.append_nil]
  · rw [computeGold_eq fuel reference₂ exampleOutput 4 (by decide) hfuel (by omega) (by decide),
      hd₂, hm₂, List.append_nil]

theorem computeGold_not_idempotent_witness :
    (4 < 5 ∧ [F32.nan, F32.nan, F32.nan, F32.nan].length = 4 ∧
      [F32.inf false, F32.nan, F32.nan, F32.inf true].length = 4) ∧
    ∃ out₁ out₂ : Buffers,
      computeGold 5 [F32.nan, F32.nan, F32.nan, F32.nan] exampleInput 4 = .ok out₁ ∧
      computeGold 5 [F32.inf false, F32.nan, F32.nan, F32.inf true] out₁.reference 4
        = .ok out₂ ∧
      out₁.reference = exampleOutput ∧
      out₂.reference = exampleOutputTwice ∧
      out₂.reference ≠ out₁.reference ∧
      exampleOutputTwice.map F32.toRat = [some 16, some 32, some 48, some 64] :=
  ⟨by decide,
   computeGold_not_idempotent 5 [F32.nan, F32.nan, F32.nan, F32.nan]
     [F32.inf false, F32.nan, F32.nan, F32.inf true] (by decide) (by decide) (by decide)⟩

/-- C9 as stated fails on buffers that overlap.  With `reference = idata + 1`
and `len = 2`, the inputs `[5.0, 1.0]` and `[1.0, 1.0]` agree at index 1, yet
the memory `[5.0, 1.0, 1.0]` becomes `[5.0, 10.0, 20.0]` and the memory
`[1.0, 1.0, 1.0]` becomes `[1.0, 2.0, 4.0]`: `reference[1]` is `20.0` in one call
and `4.0` in the other, because the store to `reference[0]` changed
`idata[1]`. -/
theorem computeGoldAt_no_cross_index_overlap :
    computeGoldAt 3 [F32.num false 129 2097152, F32.num false 127 0, F32.num false 127 0]
        1 0 2 =
        .ok [F32.num false 129 2097152, F32.num false 130 2097152,
          F32.num false 131 2097152] ∧
      computeGoldAt 3 [F32.num false 127 0, F32.num false 127 0, F32.num false 127 0] 1 0 2 =
        .ok [F32.num false 127 0, F32.num false 128 0, F32.num false 129 0] ∧
      [F32.num false 129 2097152, F32.num false 127 0, F32.num false 127 0][0 + 1]? =
        [F32.num false 127 0, F32.num false 127 0, F32.num false 127 0][0 + 1]? ∧
      [F32.num false 129 2097152, F32.num false 130 2097152,
          F32.num false 131 2097152][1 + 1]? ≠
        [F32.num false 127 0, F32.num false 128 0, F32.num false 129 0][1 + 1]? ∧
      [F32.num false 129 2097152, F32.num false 130 2097152,
          F32.num false 131 2097152].map F32.toRat = [some 5, some 10, some 20] := by
  refine ⟨by decide, by decide, by decide, by decide, ?_⟩
  norm_num [F32.toRat, F32.sig, F32.qexp, Fin.coe_ofNat_eq_mod]

/-- C9, amended: no cross-index dependency on buffers that do not overlap: for
`i < len`, two calls whose inputs agree at index `i` (and may differ anywhere
else, as may the rest of the memories), each with an output buffer that does
not overlap its input, both return and leave the same value in `reference[i]`,
namely `idata[i] * f_len`, which depends on `idata[i]` and `len` only. -/
theorem computeGoldAt_no_cross_index (fuel₁ fuel₂ : Nat) (mem₁ mem₂ : List F32)
    (reference₁ idata₁ reference₂ idata₂ len i : Nat)
    (hlen : len < 4294967296) (hfuel₁ : len < fuel₁) (hfuel₂ : len < fuel₂)
    (hr₁ : reference₁ + len ≤ mem₁.length) (hi₁ : idata₁ + len ≤ mem₁.length)
    (hr₂ : reference₂ + len ≤ mem₂.length) (hi₂ : idata₂ + len ≤ mem₂.length)
    (hsep₁ : reference₁ + len ≤ idata₁ ∨ idata₁ + len ≤ reference₁)
    (hsep₂ : reference₂ + len ≤ idata₂ ∨ idata₂ + len ≤ reference₂)
    (hlt : i < len) (hsame : mem₁[idata₁ + i]? = mem₂[idata₂ + i]?) :
    ∃ (out₁ out₂ : List F32) (x : F32),
      computeGoldAt fuel₁ mem₁ reference₁ idata₁ len = .ok out₁ ∧
      computeGoldAt fuel₂ mem₂ reference₂ idata₂ len = .ok out₂ ∧
      mem₁[idata₁ + i]? = some x ∧
      out₁[reference₁ + i]? = some (F32.mul x (F32.ofUInt32 len)) ∧
      out₂[reference₂ + i]? = out₁[reference₁ + i]? := by
  obtain ⟨out₁, h0, _, h2⟩ :=
    computeGoldAt_ok fuel₁ mem₁ reference₁ idata₁ len hlen hfuel₁ hr₁ hi₁ hsep₁
  obtain ⟨out₂, k0, _, k2⟩ :=
    computeGoldAt_ok fuel₂ mem₂ reference₂ idata₂ len hlen hfuel₂ hr₂ hi₂ hsep₂
  obtain ⟨x, hx⟩ : ∃ x, mem₁[idata₁ + i]? = some x := by
    cases h : mem₁[idata₁ + i]? with
    | none => rw [List.getElem?_eq_none_iff] at h; omega
    | some x => exact ⟨x, rfl⟩
  have c₁ : reference₁ ≤ reference₁ + i ∧ reference₁ + i < reference₁ + len := by omega
  have c₂ : reference₂ ≤ reference₂ + i ∧ reference₂ + i < reference₂ + len := by omega
  have e₁ : reference₁ + i - reference₁ = i := by omega
  have e₂ : reference₂ + i - reference₂ = i := by omega
  refine ⟨out₁, out₂, x, h0, k0, hx, ?_, ?_⟩
  · rw [h2 (reference₁ + i)]
    simp [c₁, e₁, hx]
  · rw [h2 (reference₁ + i), k2 (reference₂ + i)]
    simp only [c₁, c₂, e₁, e₂, and_self, if_true, hsame]

theorem computeGoldAt_no_cross_index_witness :
    (2 < 4294967296 ∧ 2 < 3 ∧ 2 < 4 ∧
      2 + 2 ≤ [F32.num false 127 0, F32.num true 0 1, F32.nan, F32.inf true].length ∧
      0 + 2 ≤ [F32.num false 127 0, F32.num true 0 1, F32.nan, F32.inf true].length ∧
      0 + 2 ≤ [F32.num false 3 5, F32.num true 0 0, F32.nan, F32.inf true,
        F32.num true 0 1].length ∧
      3 + 2 ≤ [F32.num false 3 5, F32.num true 0 0, F32.nan, F32.inf true,
        F32.num true 0 1].length ∧
      (2 + 2 ≤ 0 ∨ 0 + 2 ≤ 2) ∧ (0 + 2 ≤ 3 ∨ 3 + 2 ≤ 0) ∧ 1 < 2 ∧
      [F32.num false 127 0, F32.num true 0 1, F32.nan, F32.inf true][0 + 1]? =
        [F32.num false 3 5, F32.num true 0 0, F32.nan, F32.inf true,
          F32.num true 0 1][3 + 1]?) ∧
    ∃ (out₁ out₂ : List F32) (x : F32),
      computeGoldAt 3 [F32.num false 127 0, F32.num true 0 1, F32.nan, F32.inf true] 2 0 2
        = .ok out₁ ∧
      computeGoldAt 4 [F32.num false 3 5, F32.num true 0 0, F32.nan, F32.inf true,
        F32.num true 0 1] 0 3 2 = .ok out₂ ∧
      [F32.num false 127 0, F32.num true 0 1, F32.nan, F32.inf true][0 + 1]? = some x ∧
      out₁[2 + 1]? = some (F32.mul x (F32.ofUInt32 2)) ∧
      out₂[0 + 1]? = out₁[2 + 1]? :=
  ⟨by decide,
   computeGoldAt_no_cross_index 3 4
     [F32.num false 127 0, F32.num true 0 1, F32.nan, F32.inf true]
     [F32.num false 3 5, F32.num true 0 0, F32.nan, F32.inf true, F32.num true 0 1]
     2 0 0 3 2 1 (by decide) (by decide) (by decide) (by decide) (by decide) (by decide)
     (by decide) (by decide) (by decide) (by decide) (by decide)⟩

/-- C10: for every 32-bit `len` (up to `2 ^ 32 - 1`) the loop ends: with buffers
of capacity at least `len`, any fuel above `len` gives a finished run whose body
ran exactly `len` times, at `i = 0, 1, ..., len - 1` in this order, leaving
`i = len`, and no increment wrapped; `len` tests of the condition or fewer are
not enough to finish; and whatever the buffers, fuel above `len` is never
exhausted. -/
theorem computeGold_terminates (reference idata : List F32) (len : Nat)
    (hlen : len < 4294967296)
    (hr : len ≤ reference.length) (hi : len ≤ idata.length) :
    (∀ fuel, len < fuel →
      ∃ r : Run, computeGoldRun fuel reference idata len = .ok r ∧
        r.visited = List.range len ∧ r.visited.length = len ∧ r.final.i = len ∧
        ∀ j ∈ r.visited, (j + 1) % 4294967296 = j + 1) ∧
    (∀ fuel, fuel ≤ len → computeGoldRun fuel reference idata len = .outOfFuel) ∧
    (∀ (fuel : Nat) (reference₀ idata₀ : List F32), len < fuel →
      computeGoldRun fuel reference₀ idata₀ len ≠ .outOfFuel) := by
  refine ⟨?_, ?_, ?_⟩
  · intro fuel hf
    obtain ⟨r, h0, h1, _, _, h4, _⟩ := computeGoldRun_ok fuel reference idata len hlen hf hr hi
    refine ⟨r, h0, h4, by simp [h4], h1, ?_⟩
    intro j hj
    rw [h4, List.mem_range] at hj
    exact Nat.mod_eq_of_lt (by omega)
  · intro fuel hf
    exact loop_outOfFuel len (F32.ofUInt32 len) hlen fuel
      { reference := reference, idata := idata, i := 0 } (by simp; omega) hr hi
  · intro fuel reference₀ idata₀ hf
    exact loop_ne_outOfFuel len (F32.ofUInt32 len) hlen len fuel
      { reference := reference₀, idata := idata₀, i := 0 } (by simp) hf

theorem computeGold_terminates_witness :
    (3 < 4294967296 ∧ 3 ≤ [F32.nan, F32.inf true, F32.nan].length ∧
      3 ≤ [F32.num false 127 0, F32.num true 0 1, F32.nan, F32.nan].length) ∧
    ((∀ fuel, 3 < fuel →
      ∃ r : Run, computeGoldRun fuel [F32.nan, F32.inf true, F32.nan]
          [F32.num false 127 0, F32.num true 0 1, F32.nan, F32.nan] 3 = .ok r ∧
        r.visited = List.range 3 ∧ r.visited.length = 3 ∧ r.final.i = 3 ∧
        ∀ j ∈ r.visited, (j + 1) % 4294967296 = j + 1) ∧
    (∀ fuel, fuel ≤ 3 → computeGoldRun fuel [F32.nan, F32.inf true, F32.nan]
        [F32.num false 127 0, F32.num true 0 1, F32.nan, F32.nan] 3 = .outOfFuel) ∧
    (∀ (fuel : Nat) (reference₀ idata₀ : List F32), 3 < fuel →
      computeGoldRun fuel reference₀ idata₀ 3 ≠ .outOfFuel)) :=
  ⟨by decide,
   computeGold_terminates [F32.nan, F32.inf true, F32.nan]
     [F32.num false 127 0, F32.num true 0 1, F32.nan, F32.nan] 3
     (by decide) (by decide) (by decide)⟩

/-- C11: for `len == 1` the multiplier `f_len` is `1.0` and the call is the
identity on values: for every `x` that is not a NaN, `idata = [x]` leaves
`reference[0] = x` (and `reference = [x]` when the buffer has one cell). -/
theorem computeGold_len_one (fuel : Nat) (reference : List F32) (x : F32)
    (hfuel : 1 < fuel) (hr : 1 ≤ reference.length) (hx : x ≠ F32.nan) :
    F32.ofUInt32 1 = F32.num false 127 0 ∧
      F32.toRat (F32.num false 127 0) = some 1 ∧
      ∃ out : Buffers, computeGold fuel reference [x] 1 = .ok out ∧
        out.reference[0]? = some x ∧
        (reference.length = 1 → out.reference = [x]) := by
  refine ⟨F32.ofUInt32_one, ?_, ?_⟩
  · norm_num [F32.toRat, F32.sig, F32.qexp, Fin.coe_ofNat_eq_mod]
  · have hm : F32.mul x (F32.ofUInt32 1) = x := by
      rw [F32.ofUInt32_one]
      exact F32.mul_one x hx
    refine ⟨_, computeGold_eq fuel reference [x] 1 (by decide) hfuel hr (by simp), ?_, ?_⟩
    · simp [hm]
    · intro h1
      have hd : reference.drop 1 = [] := List.drop_eq_nil_of_le (by omega)
      simp [hm, hd]

theorem computeGold_len_one_witness :
    (1 < 2 ∧ 1 ≤ [F32.nan].length ∧ F32.num false 0 0 ≠ F32.nan) ∧
    (F32.ofUInt32 1 = F32.num false 127 0 ∧
      F32.toRat (F32.num false 127 0) = some 1 ∧
      ∃ out : Buffers, computeGold 2 [F32.nan] [F32.num false 0 0] 1 = .ok out ∧
        out.reference[0]? = some (F32.num false 0 0) ∧
        ([F32.nan].length = 1 → out.reference = [F32.num false 0 0])) :=
  ⟨by decide,
   computeGold_len_one 2 [F32.nan] (F32.num false 0 0) (by decide) (by decide) (by decide)⟩

end TemplateCpu
